import Mathlib

/-!
Verification of the conjoint-study helper program
(src/plugins/edsl-research/skills/conjoint-study/helpers.py).

The Python code is shallowly embedded as follows.

* A Python dict with string keys is an association list with distinct keys,
  in insertion order; dict lookup is the function alookup below.
* A Profile (dict attribute name -> level) is a list of string pairs,
  in the attribute order of the specification; an attribute specification
  (dict attribute name -> list of levels) is a list of (name, levels) pairs.
* Python floats are modelled exactly: by the rationals where only field
  arithmetic occurs (balance scores), and by the reals where log and exp
  occur (utilities, market shares).
* The global random number generator of the random module is modelled by an
  explicit state, a stream of naturals together with a cursor; each
  primitive draw consumes one stream element.  random.shuffle is modelled
  as the stream-driven Fisher-Yates exchange below; since every permutation
  of Python's shuffle and every randint result is realised by some stream,
  theorems quantify over all streams and counterexamples pick one.
* Fallible code (in Python: an uncaught exception, or sys.exit) returns
  Option or Except; a none / error result is a run that terminates with a
  non-zero status before writing its output.
-/

/-- A product profile: one level per attribute, in attribute order
(Python dict attr name -> level). -/
abbrev Profile := List (String × String)

/-- An attribute specification: attribute name -> ordered levels
(Python dict attr name -> list of levels). -/
abbrev AttrSpec := List (String × List String)

/-- Lookup in an association list, the embedding of Python dict access
(keys are unique in every dict the program builds). -/
def alookup {κ β : Type} [DecidableEq κ] (k : κ) : List (κ × β) → Option β
  | [] => none
  | kv :: rest => if kv.1 = k then some kv.2 else alookup k rest

/-!
Profile Enumerator, helpers.py lines 57-71 (_all_profiles).
itertools.product iterates the first attribute slowest, so the product of
the tail specification is enumerated in full for each level of the head
attribute, levels in their given order.
-/

/-- All possible profiles from attribute-level definitions
(helpers.py, _all_profiles: itertools.product over the level lists in
specification order, each combination zipped back with the names). -/
def _all_profiles : AttrSpec → List Profile
  | [] => [[]]
  | al :: rest =>
    ((al.2.map (fun level => (_all_profiles rest).map (fun p => (al.1, level) :: p))).flatten)

/-- The nested-iteration enumeration exactly as the spec words it
(outer loop over attributes in specification order, inner loops over
levels in given order); used to state the order clause of the
enumerator claim against the code's definition. -/
def cartesianNested (attributes : AttrSpec) : List Profile :=
  attributes.foldr
    (fun al acc => ((al.2.map (fun level => acc.map (fun p => (al.1, level) :: p))).flatten))
    [[]]

/-!
Balance Scorer, helpers.py lines 79-97 (_level_balance_score).
For each attribute the code counts, over every profile slot of every
choice set, how often each level value occurs (counts), together with the
total number of slots (total, the same for every attribute); the expected
count is total / len(levels) (or the unused 1 when there are no levels),
and each level contributes (obs - expected)^2 / expected when expected
is positive, else 0.
-/

/-- Number of profile slots across all tasks; helpers.py accumulates this
as `total += 1` per slot inside the attribute loop, giving the same value
for every attribute. -/
def slotTotal (choice_sets : List (List Profile)) : Nat :=
  (choice_sets.map List.length).sum

/-- How often a level occurs for an attribute across every profile slot
(the Counter `counts` of _level_balance_score). -/
def countSlots (choice_sets : List (List Profile)) (attr level : String) : Nat :=
  (choice_sets.map (fun cs => cs.countP (fun p => decide (alookup attr p = some level)))).sum

/-- Expected per-level count: total slots divided by the number of levels
(`total / len(levels) if levels else 1`). -/
def expectedCount (choice_sets : List (List Profile)) (levels : List String) : ℚ :=
  if levels = [] then 1 else (slotTotal choice_sets : ℚ) / levels.length

/-- Chi-squared-like balance metric (helpers.py, _level_balance_score). -/
def _level_balance_score (choice_sets : List (List Profile)) (attributes : AttrSpec) : ℚ :=
  (attributes.map (fun al =>
    (al.2.map (fun level =>
      if 0 < expectedCount choice_sets al.2 then
        ((countSlots choice_sets al.1 level : ℚ) - expectedCount choice_sets al.2) ^ 2 /
          expectedCount choice_sets al.2
      else 0)).sum)).sum

/-!
Importance Calculator, helpers.py lines 342-359 (_compute_importance).
Generic in the ordered field so that it applies to the real-valued
utility tables the analysis produces.
-/

/-- Utility range of an attribute: max minus min of its level utilities,
0 when there are none (`max(vals) - min(vals)` guarded by `if vals`). -/
def rangeOf {α : Type} [LinearOrder α] [Sub α] [Zero α] : List α → α
  | [] => 0
  | v :: vs => vs.foldl max v - vs.foldl min v

/-- Attribute importance weights from part-worth utilities
(helpers.py, _compute_importance). -/
def _compute_importance {α : Type} [LinearOrderedField α]
    (utilities : List (String × List (String × α))) : List (String × α) :=
  let ranges := utilities.map (fun au => (au.1, rangeOf (au.2.map Prod.snd)))
  let total_range := (ranges.map Prod.snd).sum
  ranges.map (fun ar => (ar.1, if 0 < total_range then ar.2 / total_range * 100 else 0))

/-! Helper lemmas about folds, sums and the enumerator. -/

lemma le_foldl_max {α : Type} [LinearOrder α] (l : List α) :
    ∀ a : α, a ≤ l.foldl max a := by
  induction l with
  | nil => intro a; exact le_rfl
  | cons x xs ih =>
    intro a
    exact le_trans (le_max_left a x) (ih (max a x))

lemma foldl_min_le {α : Type} [LinearOrder α] (l : List α) :
    ∀ a : α, l.foldl min a ≤ a := by
  induction l with
  | nil => intro a; exact le_rfl
  | cons x xs ih =>
    intro a
    exact le_trans (ih (min a x)) (min_le_left a x)

lemma rangeOf_nonneg {α : Type} [LinearOrderedField α] (l : List α) :
    0 ≤ rangeOf l := by
  cases l with
  | nil => exact le_rfl
  | cons v vs =>
    have h1 : v ≤ vs.foldl max v := le_foldl_max vs v
    have h2 : vs.foldl min v ≤ v := foldl_min_le vs v
    simp only [rangeOf, sub_nonneg]
    exact le_trans h2 h1

lemma sum_map_div_mul {α β : Type} [LinearOrderedField α] (l : List β) (f : β → α)
    (T c : α) : (l.map (fun x => f x / T * c)).sum = (l.map f).sum / T * c := by
  induction l with
  | nil => simp
  | cons x xs ih => simp [ih, add_div, add_mul]

lemma all_profiles_eq_nested (attributes : AttrSpec) :
    _all_profiles attributes = cartesianNested attributes := by
  induction attributes with
  | nil => rfl
  | cons al rest ih => simp [_all_profiles, cartesianNested, List.foldr] at ih ⊢; rw [ih]

lemma sum_map_const_nat {α : Type} (l : List α) (k : ℕ) :
    (l.map (fun _ => k)).sum = l.length * k := by
  induction l with
  | nil => simp
  | cons x xs ih => simp [ih, Nat.succ_mul, Nat.add_comm]

lemma all_profiles_length (attributes : AttrSpec) :
    (_all_profiles attributes).length = (attributes.map (fun al => al.2.length)).prod := by
  induction attributes with
  | nil => rfl
  | cons al rest ih =>
    simp only [_all_profiles, List.length_flatten, List.map_map, Function.comp_def,
      List.length_map, List.map_cons, List.prod_cons]
    rw [sum_map_const_nat, ih, Nat.mul_comm]

lemma all_profiles_shape (attributes : AttrSpec) :
    ∀ p ∈ _all_profiles attributes,
      List.Forall₂ (fun (kv : String × String) (al : String × List String) =>
        kv.1 = al.1 ∧ kv.2 ∈ al.2) p attributes := by
  induction attributes with
  | nil =>
    intro p hp
    simp only [_all_profiles, List.mem_singleton] at hp
    subst hp
    exact List.Forall₂.nil
  | cons al rest ih =>
    intro p hp
    rw [_all_profiles, List.mem_flatten] at hp
    obtain ⟨l', hl', hp⟩ := hp
    obtain ⟨level, hlevel, rfl⟩ := List.mem_map.mp hl'
    obtain ⟨q, hq, rfl⟩ := List.mem_map.mp hp
    exact List.Forall₂.cons ⟨rfl, hlevel⟩ (ih q hq)

/-- C4: for every attribute specification with at least one attribute, each
having at least one level, the Profile Enumerator returns the full Cartesian
product of the levels: the output length is the product of the per-attribute
level counts, every output profile pairs the attributes in specification
order each with one of its own levels, and the output is exactly the
deterministic nested iteration over attributes in specification order with
levels in their given order. -/
theorem C4_profile_enumerator_cartesian (attributes : AttrSpec)
    (hne : attributes ≠ []) (hlv : ∀ al ∈ attributes, al.2 ≠ []) :
    (_all_profiles attributes).length = (attributes.map (fun al => al.2.length)).prod ∧
    (∀ p ∈ _all_profiles attributes,
      List.Forall₂ (fun (kv : String × String) (al : String × List String) =>
        kv.1 = al.1 ∧ kv.2 ∈ al.2) p attributes) ∧
    _all_profiles attributes = cartesianNested attributes :=
  ⟨all_profiles_length attributes, all_profiles_shape attributes,
    all_profiles_eq_nested attributes⟩

/-- Witness for C4 at the one-attribute, one-level specification. -/
theorem C4_profile_enumerator_cartesian_witness :
    (_all_profiles [("a", ["x"])]).length =
        ([("a", ["x"])].map (fun al => al.2.length)).prod ∧
    (∀ p ∈ _all_profiles [("a", ["x"])],
      List.Forall₂ (fun (kv : String × String) (al : String × List String) =>
        kv.1 = al.1 ∧ kv.2 ∈ al.2) p [("a", ["x"])]) ∧
    _all_profiles [("a", ["x"])] = cartesianNested [("a", ["x"])] :=
  C4_profile_enumerator_cartesian [("a", ["x"])] (by decide) (by decide)

/-- C3: the Balance Scorer is the sum over attributes and levels of
(observed - expected)^2 / expected with expected = total slots / number of
levels (levels with non-positive expected count contributing 0); it is
non-negative, and it is 0 whenever every level of every attribute occurs
exactly the expected number of times. -/
theorem C3_balance_score_nonneg_zero (choice_sets : List (List Profile))
    (attributes : AttrSpec) :
    0 ≤ _level_balance_score choice_sets attributes ∧
    ((∀ al ∈ attributes, ∀ l ∈ al.2,
        (countSlots choice_sets al.1 l : ℚ) = expectedCount choice_sets al.2) →
      _level_balance_score choice_sets attributes = 0) := by
  constructor
  · apply List.sum_nonneg
    intro x hx
    obtain ⟨al, _, rfl⟩ := List.mem_map.mp hx
    apply List.sum_nonneg
    intro y hy
    obtain ⟨l, _, rfl⟩ := List.mem_map.mp hy
    by_cases hpos : 0 < expectedCount choice_sets al.2
    · rw [if_pos hpos]
      exact div_nonneg (sq_nonneg _) (le_of_lt hpos)
    · rw [if_neg hpos]
  · intro h
    apply List.sum_eq_zero
    intro x hx
    obtain ⟨al, hal, rfl⟩ := List.mem_map.mp hx
    apply List.sum_eq_zero
    intro y hy
    obtain ⟨l, hl, rfl⟩ := List.mem_map.mp hy
    by_cases hpos : 0 < expectedCount choice_sets al.2
    · rw [if_pos hpos, h al hal l hl, sub_self]
      simp
    · rw [if_neg hpos]

/-- Witness for C3: a perfectly uniform one-attribute design scores zero. -/
theorem C3_balance_score_nonneg_zero_witness :
    0 ≤ _level_balance_score [[[("a", "x")], [("a", "y")]]] [("a", ["x", "y"])] ∧
    _level_balance_score [[[("a", "x")], [("a", "y")]]] [("a", ["x", "y"])] = 0 := by
  refine ⟨(C3_balance_score_nonneg_zero _ _).1, (C3_balance_score_nonneg_zero _ _).2 ?_⟩
  intro al hal l hl
  have hal' : al = ("a", ["x", "y"]) := by simpa using hal
  subst hal'
  have hcount : ∀ lv ∈ (["x", "y"] : List String),
      countSlots [[[("a", "x")], [("a", "y")]]] "a" lv = 1 := by decide
  rw [hcount l hl]
  norm_num [expectedCount, slotTotal]

/-- C5: the Importance Calculator divides each attribute's utility range by
the sum of all ranges and scales by 100; whenever some attribute has nonzero
range the percentages sum to 100, and when the total range is 0 every
importance is 0. -/
theorem C5_importance_sums_to_100 (utilities : List (String × List (String × ℝ))) :
    ((∃ au ∈ utilities, rangeOf (au.2.map Prod.snd) ≠ 0) →
      ((_compute_importance utilities).map Prod.snd).sum = 100) ∧
    ((utilities.map (fun au => rangeOf (au.2.map Prod.snd))).sum = 0 →
      ∀ x ∈ _compute_importance utilities, x.2 = 0) := by
  have hvals : ((utilities.map (fun au => (au.1, rangeOf (au.2.map Prod.snd)))).map
      Prod.snd) = utilities.map (fun au => rangeOf (au.2.map Prod.snd)) := by
    rw [List.map_map]; rfl
  constructor
  · rintro ⟨au, hau, hne⟩
    have hnn : ∀ x ∈ utilities.map (fun au => rangeOf (au.2.map Prod.snd)), (0:ℝ) ≤ x := by
      intro x hx
      obtain ⟨au', _, rfl⟩ := List.mem_map.mp hx
      exact rangeOf_nonneg _
    have hmem : rangeOf (au.2.map Prod.snd) ∈
        utilities.map (fun au => rangeOf (au.2.map Prod.snd)) :=
      List.mem_map.mpr ⟨au, hau, rfl⟩
    have hle := List.single_le_sum hnn _ hmem
    have hr : 0 < rangeOf (au.2.map Prod.snd) :=
      lt_of_le_of_ne (rangeOf_nonneg _) (Ne.symm hne)
    have htot : 0 < (utilities.map (fun au => rangeOf (au.2.map Prod.snd))).sum :=
      lt_of_lt_of_le hr hle
    simp only [_compute_importance, hvals, List.map_map, Function.comp_def, if_pos htot]
    rw [sum_map_div_mul utilities (fun au => rangeOf (au.2.map Prod.snd)),
      div_self (ne_of_gt htot)]
    norm_num
  · intro htot x hx
    simp only [_compute_importance, hvals, htot, lt_irrefl, if_false, List.mem_map] at hx
    obtain ⟨ar, _, rfl⟩ := hx
    rfl

/-- Witness for C5 at a two-level table of range 1. -/
theorem C5_importance_sums_to_100_witness :
    ((_compute_importance [("a", [("x", (1:ℝ)), ("y", 0)])]).map Prod.snd).sum = 100 := by
  apply (C5_importance_sums_to_100 [("a", [("x", (1:ℝ)), ("y", 0)])]).1
  refine ⟨("a", [("x", (1:ℝ)), ("y", 0)]), by simp, ?_⟩
  simp only [rangeOf, List.map_cons, List.map_nil, List.foldl]
  rw [max_eq_left (by norm_num : (0:ℝ) ≤ 1), min_eq_right (by norm_num : (0:ℝ) ≤ 1)]
  norm_num

/-!
Utility Estimator, helpers.py lines 294-339 (_compute_utilities).
Choice records are the output of the results parser: a task index, the
chosen profile (none when a "none of these" answer was recorded), and the
respondent traits.  _compute_utilities reads only the chosen profile.
The per-attribute dict attr_utils is keyed by level, so duplicate entries
in a level list collapse to their first occurrence (dedupFirst below);
an attribute with an empty level list makes the Python program raise
ZeroDivisionError at expected_share, so the estimator theorems assume
non-empty level lists.
-/

/-- One parsed respondent-task observation (helpers.py, _parse_results_csv
record dicts). -/
structure ChoiceRecord where
  task : Nat
  chosen_profile : Option Profile
  agent_traits : List (String × String)

/-- How many records chose a profile carrying the given level for the given
attribute (the Counter level_chosen; records with a null choice, or whose
chosen profile lacks the attribute, are not counted). -/
def chosenCount (records : List ChoiceRecord) (attr level : String) : Nat :=
  records.countP (fun rec =>
    match rec.chosen_profile with
    | some p => decide (alookup attr p = some level)
    | none => false)

/-- Number of records with a non-null chosen profile (total_choices). -/
def totalChoices (records : List ChoiceRecord) : Nat :=
  records.countP (fun rec => rec.chosen_profile.isSome)

/-- Distinct elements of a list keeping first occurrences, skipping entries
already seen. -/
def dedupFirstAux {α : Type} [DecidableEq α] (seen : List α) : List α → List α
  | [] => []
  | a :: l => if a ∈ seen then dedupFirstAux seen l else a :: dedupFirstAux (a :: seen) l

/-- Distinct elements of a list keeping first occurrences, the key sequence
of a Python dict built by insertion. -/
def dedupFirst {α : Type} [DecidableEq α] (l : List α) : List α :=
  dedupFirstAux [] l

/-- The per-attribute dict attr_utils of _compute_utilities before
zero-centering: each (still-present) level mapped to
log((chosen/total) / expected_share) under the code's guard
total_choices > 0 and chosen_count > 0, else the penalty -2.0
(expected_share = 1 / len(levels), over the raw level list). -/
noncomputable def attrRawUtils (records : List ChoiceRecord) (attr : String)
    (levels : List String) : List (String × ℝ) :=
  (dedupFirst levels).map (fun level =>
    (level,
      if 0 < totalChoices records ∧ 0 < chosenCount records attr level then
        Real.log (((chosenCount records attr level : ℝ) / (totalChoices records : ℝ)) /
          ((1 : ℝ) / (levels.length : ℝ)))
      else -2))

/-- The mean_util local of _compute_utilities:
sum(attr_utils.values()) / len(attr_utils) if attr_utils else 0. -/
noncomputable def attrMeanUtil (records : List ChoiceRecord) (attr : String)
    (levels : List String) : ℝ :=
  if attrRawUtils records attr levels = [] then 0
  else ((attrRawUtils records attr levels).map Prod.snd).sum /
    ((attrRawUtils records attr levels).length : ℝ)

/-- Part-worth utilities via counting analysis
(helpers.py, _compute_utilities): each level's raw utility as in
attrRawUtils, then the attribute's mean raw utility subtracted from every
level. -/
noncomputable def _compute_utilities (records : List ChoiceRecord)
    (attributes : AttrSpec) : List (String × List (String × ℝ)) :=
  attributes.map (fun al =>
    (al.1, (attrRawUtils records al.1 al.2).map
      (fun lv => (lv.1, lv.2 - attrMeanUtil records al.1 al.2))))

/-- The pre-centering utility exactly as the spec words it: ln of the ratio
of empirical choice share to the uniform expected share when the level was
ever chosen, and the fixed penalty -2.0 when chosen_count = 0 (including
when total_choices = 0). -/
noncomputable def specPreUtility (records : List ChoiceRecord) (attr : String)
    (levels : List String) (level : String) : ℝ :=
  if 0 < chosenCount records attr level then
    Real.log (((chosenCount records attr level : ℝ) / (totalChoices records : ℝ)) /
      ((1 : ℝ) / (levels.length : ℝ)))
  else -2

lemma chosenCount_le_totalChoices (records : List ChoiceRecord) (attr level : String) :
    chosenCount records attr level ≤ totalChoices records := by
  apply List.countP_mono_left
  intro rec _ h
  cases hc : rec.chosen_profile with
  | none => rw [hc] at h; exact absurd h (by simp)
  | some p => simp [Option.isSome, hc]

lemma dedupFirstAux_of_nodup {α : Type} [DecidableEq α] (l : List α) :
    ∀ seen : List α, (∀ x ∈ l, x ∉ seen) → l.Nodup → dedupFirstAux seen l = l := by
  induction l with
  | nil => intro seen _ _; rfl
  | cons a l ih =>
    intro seen hseen hnd
    rw [dedupFirstAux, if_neg (hseen a (List.mem_cons_self a l))]
    congr 1
    apply ih
    · intro x hx
      simp only [List.mem_cons]
      rintro (rfl | hmem)
      · exact (List.nodup_cons.mp hnd).1 hx
      · exact hseen x (List.mem_cons_of_mem a hx) hmem
    · exact (List.nodup_cons.mp hnd).2

lemma dedupFirst_of_nodup {α : Type} [DecidableEq α] (l : List α) (h : l.Nodup) :
    dedupFirst l = l :=
  dedupFirstAux_of_nodup l [] (fun x _ => List.not_mem_nil x) h

lemma alookup_map_attrs {β : Type} (attributes : AttrSpec)
    (f : String × List String → β) (hkeys : (attributes.map Prod.fst).Nodup)
    (a : String) (levels : List String) (hmem : (a, levels) ∈ attributes) :
    alookup a (attributes.map (fun al => (al.1, f al))) = some (f (a, levels)) := by
  induction attributes with
  | nil => cases hmem
  | cons al rest ih =>
    rcases List.mem_cons.mp hmem with heq | htail
    · subst heq
      simp [alookup]
    · have hkey : al.1 ≠ a := by
        intro hcon
        have : a ∈ rest.map Prod.fst := List.mem_map.mpr ⟨(a, levels), htail, rfl⟩
        rw [List.map_cons, List.nodup_cons] at hkeys
        exact hkeys.1 (hcon ▸ this)
      simp only [List.map_cons, alookup, if_neg hkey]
      exact ih (by rw [List.map_cons, List.nodup_cons] at hkeys; exact hkeys.2) htail

lemma alookup_level_map {β : Type} (levels : List String) (g : String → β)
    (hnd : levels.Nodup) (l : String) (hl : l ∈ levels) :
    alookup l (levels.map (fun x => (x, g x))) = some (g l) := by
  induction levels with
  | nil => cases hl
  | cons x xs ih =>
    rcases List.mem_cons.mp hl with heq | htail
    · subst heq
      simp [alookup]
    · have hx : x ≠ l := by
        intro hcon
        exact (List.nodup_cons.mp hnd).1 (hcon ▸ htail)
      simp only [List.map_cons, alookup, if_neg hx]
      exact ih (List.nodup_cons.mp hnd).2 htail

/-- C1: for every record list and attribute specification (with unique
attribute names and non-empty, duplicate-free level lists, as any design
specification has), the Utility Estimator assigns each level the
pre-centering utility of the spec wording - ln((chosen/total)/expected
share) when the level was ever chosen, the fixed -2.0 otherwise, including
when there are no choices at all - minus the attribute's mean pre-centering
utility.  In particular the code's guard total_choices > 0 and
chosen_count > 0 coincides with the spec's chosen_count > 0. -/
theorem C1_utility_estimator_formula (records : List ChoiceRecord)
    (attributes : AttrSpec) (hkeys : (attributes.map Prod.fst).Nodup)
    (a : String) (levels : List String) (hmem : (a, levels) ∈ attributes)
    (hnd : levels.Nodup) (hne : levels ≠ []) (l : String) (hl : l ∈ levels) :
    (alookup a (_compute_utilities records attributes)).bind (alookup l) =
      some (specPreUtility records a levels l -
        (levels.map (specPreUtility records a levels)).sum / (levels.length : ℝ)) := by
  have hcond : ∀ lv, (0 < totalChoices records ∧ 0 < chosenCount records a lv) ↔
      0 < chosenCount records a lv := by
    intro lv
    constructor
    · exact And.right
    · intro h
      exact ⟨lt_of_lt_of_le h (chosenCount_le_totalChoices records a lv), h⟩
  have hraw : attrRawUtils records a levels =
      levels.map (fun level => (level, specPreUtility records a levels level)) := by
    rw [attrRawUtils, dedupFirst_of_nodup levels hnd]
    apply List.map_congr_left
    intro lv _
    rw [specPreUtility]
    by_cases h : 0 < chosenCount records a lv
    · rw [if_pos ((hcond lv).mpr h), if_pos h]
    · rw [if_neg (fun hc => h ((hcond lv).mp hc)), if_neg h]
  have hmean : attrMeanUtil records a levels =
      (levels.map (specPreUtility records a levels)).sum / (levels.length : ℝ) := by
    rw [attrMeanUtil, hraw, if_neg (by simpa using hne), List.map_map, List.length_map]
    rfl
  rw [_compute_utilities, alookup_map_attrs attributes _ hkeys a levels hmem]
  simp only [Option.some_bind]
  rw [hraw, hmean, List.map_map]
  have hcomp : ((fun lv : String × ℝ => (lv.1, lv.2 -
        (levels.map (specPreUtility records a levels)).sum / (levels.length : ℝ))) ∘
      (fun level => (level, specPreUtility records a levels level))) =
      fun x => (x, specPreUtility records a levels x -
        (levels.map (specPreUtility records a levels)).sum / (levels.length : ℝ)) := rfl
  rw [hcomp]
  exact alookup_level_map levels _ hnd l hl

/-- Witness for C1 on an empty record list over one two-level attribute. -/
theorem C1_utility_estimator_formula_witness :
    (alookup "color" (_compute_utilities [] [("color", ["red", "blue"])])).bind
        (alookup "red") =
      some (specPreUtility [] "color" ["red", "blue"] "red" -
        ((["red", "blue"].map (specPreUtility [] "color" ["red", "blue"])).sum /
          ((["red", "blue"] : List String).length : ℝ))) :=
  C1_utility_estimator_formula [] [("color", ["red", "blue"])] (by decide)
    "color" ["red", "blue"] (by decide) (by decide) (by decide) "red" (by decide)

/-!
Market Simulator, helpers.py lines 533-562 (market_sim).
Each profile's total utility sums utilities[attr][level] over the
attributes whose name is in the utility table and whose level is in that
attribute's mapping; the logit shares subtract the maximum utility before
exponentiating and divide by the sum of exponentials when positive.
-/

/-- Python max(l) guarded by `if l else 0` (market_sim's max_util). -/
def maxList (l : List ℝ) : ℝ :=
  match l with
  | [] => 0
  | x :: xs => xs.foldl max x

/-- Total utility of one profile under a utility table (market_sim's
inner loop: attributes or levels missing from the table contribute 0). -/
noncomputable def profileTotalUtility (utilities : List (String × List (String × ℝ)))
    (profile : Profile) : ℝ :=
  (profile.map (fun al =>
    match alookup al.1 utilities with
    | some m =>
      match alookup al.2 m with
      | some u => u
      | none => 0
    | none => 0)).sum

/-- Choice shares of the logit model (market_sim: numerically stable
softmax over the per-profile total utilities, shares 0 when the sum of
exponentials is not positive). -/
noncomputable def marketShares (profile_utils : List ℝ) : List ℝ :=
  (profile_utils.map (fun u => Real.exp (u - maxList profile_utils))).map
    (fun e => if 0 < (profile_utils.map
        (fun u => Real.exp (u - maxList profile_utils))).sum then
      e / (profile_utils.map (fun u => Real.exp (u - maxList profile_utils))).sum
    else 0)

lemma sum_map_div {α : Type} (l : List α) (f : α → ℝ) (T : ℝ) :
    (l.map (fun x => f x / T)).sum = (l.map f).sum / T := by
  induction l with
  | nil => simp
  | cons x xs ih => simp [ih, add_div]

lemma marketShares_sum_eq_one (us : List ℝ) (h : us ≠ []) :
    (marketShares us).sum = 1 := by
  have hpos : ∀ x ∈ us.map (fun u => Real.exp (u - maxList us)), (0:ℝ) < x := by
    intro x hx
    obtain ⟨u, _, rfl⟩ := List.mem_map.mp hx
    exact Real.exp_pos _
  have hS : 0 < (us.map (fun u => Real.exp (u - maxList us))).sum :=
    List.sum_pos _ hpos (by simpa using h)
  rw [marketShares]
  simp only [if_pos hS, List.map_map, Function.comp_def]
  rw [sum_map_div us (fun u => Real.exp (u - maxList us)), div_self (ne_of_gt hS)]

lemma foldl_max_add (l : List ℝ) : ∀ a c : ℝ,
    (l.map (fun u => u + c)).foldl max (a + c) = l.foldl max a + c := by
  induction l with
  | nil => intro a c; rfl
  | cons x xs ih =>
    intro a c
    simp only [List.map_cons, List.foldl_cons]
    rw [max_add_add_right a x c, ih]

lemma maxList_map_add (us : List ℝ) (c : ℝ) (h : us ≠ []) :
    maxList (us.map (fun u => u + c)) = maxList us + c := by
  cases us with
  | nil => exact absurd rfl h
  | cons u rest =>
    simp only [maxList, List.map_cons]
    exact foldl_max_add rest u c

lemma marketShares_shift (us : List ℝ) (c : ℝ) :
    marketShares (us.map (fun u => u + c)) = marketShares us := by
  cases hus : us with
  | nil => rfl
  | cons u rest =>
    rw [← hus]
    have hne : us ≠ [] := by rw [hus]; exact List.cons_ne_nil u rest
    have hexp : (us.map (fun u => u + c)).map
        (fun v => Real.exp (v - maxList (us.map (fun u => u + c)))) =
        us.map (fun u => Real.exp (u - maxList us)) := by
      rw [maxList_map_add us c hne, List.map_map]
      apply List.map_congr_left
      intro u _
      simp only [Function.comp_def]
      congr 1
      ring
    rw [marketShares, hexp, marketShares]

/-- C2: for every utility table, every non-empty profile list, and every
constant c, the Market Simulator's choice shares sum to 1, and computing
shares from the per-profile utilities shifted by c gives exactly the same
shares (softmax shift-invariance). -/
theorem C2_market_shares_sum_one_shift_invariant
    (utilities : List (String × List (String × ℝ))) (profiles : List Profile)
    (c : ℝ) (hne : profiles ≠ []) :
    (marketShares (profiles.map (profileTotalUtility utilities))).sum = 1 ∧
    marketShares ((profiles.map (profileTotalUtility utilities)).map (fun u => u + c)) =
      marketShares (profiles.map (profileTotalUtility utilities)) :=
  ⟨marketShares_sum_eq_one _ (by simpa using hne),
    marketShares_shift _ c⟩

/-- Witness for C2 on a single-profile market with an empty utility table. -/
theorem C2_market_shares_sum_one_shift_invariant_witness :
    (marketShares ([[("a", "x")]].map (profileTotalUtility []))).sum = 1 ∧
    marketShares (([[("a", "x")]].map (profileTotalUtility [])).map (fun u => u + 1)) =
      marketShares ([[("a", "x")]].map (profileTotalUtility [])) :=
  C2_market_shares_sum_one_shift_invariant [] [[("a", "x")]] 1 (by decide)

/-- C10: in the Market Simulator, an attribute of a profile whose name is in
the utility table but whose level is missing from that attribute's
level-to-utility mapping contributes 0 to the profile's total utility. -/
theorem C10_missing_level_contributes_zero
    (utilities : List (String × List (String × ℝ))) (a level : String)
    (m : List (String × ℝ)) (p : Profile)
    (hattr : alookup a utilities = some m) (hlev : alookup level m = none) :
    profileTotalUtility utilities ((a, level) :: p) = profileTotalUtility utilities p := by
  simp only [profileTotalUtility, List.map_cons, List.sum_cons, hattr, hlev, zero_add]

/-- Witness for C10: level "y" is absent from attribute "a"'s mapping. -/
theorem C10_missing_level_contributes_zero_witness :
    profileTotalUtility [("a", [("x", (1:ℝ))])] [("a", "y")] =
      profileTotalUtility [("a", [("x", (1:ℝ))])] [] :=
  C10_missing_level_contributes_zero [("a", [("x", (1:ℝ))])] "a" "y" [("x", (1:ℝ))] []
    rfl rfl

/-!
Design Search Engine, helpers.py lines 100-148 (_generate_one_version) and
151-212 (generate_design).

The random module's global state is an explicit stream-with-cursor; each
call of randint (and each exchange step of shuffle) consumes one stream
element reduced modulo the size of its range.  random.seed(s) is modelled
by an ambient function mkRng from seeds to states, a parameter of
generate_design.  A none result models a Python run killed by an uncaught
exception before writing its output: popping from an empty pool calls
randint(0, -1), which raises ValueError.
-/

/-- The state of the random module: a stream of naturals and a cursor. -/
structure Rng where
  stream : Nat → Nat
  idx : Nat

/-- Draw one value below n (n positive in every use), advancing the cursor. -/
def Rng.next (r : Rng) (n : Nat) : Nat × Rng :=
  (r.stream r.idx % n, ⟨r.stream, r.idx + 1⟩)

/-- Stream-driven Fisher-Yates shuffle: repeatedly draw a position among
the remaining elements and move that element out; the fuel argument starts
at the list length and bounds the recursion structurally. -/
def shuffleGo {α : Type} : Nat → List α → Rng → List α × Rng
  | 0, l, r => (l, r)
  | _ + 1, [], r => ([], r)
  | fuel + 1, a :: as, r =>
    let n := (a :: as).length
    let i := (Rng.next r n).1
    let x := (a :: as).getD i a
    let rest := (a :: as).eraseIdx i
    let s := shuffleGo fuel rest (Rng.next r n).2
    (x :: s.1, s.2)

/-- The model of random.shuffle. -/
def shuffleList {α : Type} (l : List α) (r : Rng) : List α × Rng :=
  shuffleGo l.length l r

/-- Number of attributes on which two profiles differ
(helpers.py, _profile_diff_count; iterates the first profile's keys). -/
def _profile_diff_count (p1 p2 : Profile) : Nat :=
  p1.countP (fun kv => decide (¬ alookup kv.1 p2 = some kv.2))

/-- The greedy filling loop of _generate_one_version: candidates are tried
in (shuffled) order, each appended when the task is still short and the
candidate differs from every profile already in the task by at least
min_diff attributes. -/
def fillMinDiff (profiles_per_task min_diff : Nat) :
    List Profile → List Profile → List Profile
  | [], task => task
  | c :: cs, task =>
    if profiles_per_task ≤ task.length then task
    else if task.all (fun t => decide (min_diff ≤ _profile_diff_count c t)) then
      fillMinDiff profiles_per_task min_diff cs (task ++ [c])
    else fillMinDiff profiles_per_task min_diff cs task

/-- The relaxation loop of _generate_one_version: when the min-diff
constraint left the task short, remaining profiles (those not already in
the task, in shuffled order) are appended without further checks. -/
def fillAny (profiles_per_task : Nat) : List Profile → List Profile → List Profile
  | [], task => task
  | c :: cs, task =>
    if profiles_per_task ≤ task.length then task
    else fillAny profiles_per_task cs (task ++ [c])

/-- The part of one task construction after the first profile is popped:
candidates (all profiles other than the first) are shuffled and added
greedily under the min-diff constraint; if the task is still short the
constraint is relaxed and remaining profiles (those not in the task,
shuffled) are appended unchecked. -/
def buildTaskCore (profiles : List Profile) (profiles_per_task min_diff : Nat)
    (first : Profile) (r2 : Rng) : List Profile × Rng :=
  let candidates := profiles.filter (fun p => decide (p ≠ first))
  let cr := shuffleList candidates r2
  let task := fillMinDiff profiles_per_task min_diff cr.1 [first]
  if task.length < profiles_per_task then
    let remaining := profiles.filter (fun p => decide (p ∉ task))
    let rr := shuffleList remaining cr.2
    (fillAny profiles_per_task rr.1 task, rr.2)
  else (task, cr.2)

/-- Build one choice task (the body of the task loop of
_generate_one_version): refill and reshuffle the pool when exhausted, pop a
random first profile, then run buildTaskCore.  none models the ValueError
of randint(0, -1) on an empty pool. -/
def buildTask (profiles : List Profile) (available : List Profile)
    (profiles_per_task min_diff : Nat) (r : Rng) :
    Option (List Profile × List Profile × Rng) :=
  let avr := if available.isEmpty then shuffleList profiles r else (available, r)
  match avr.1 with
  | [] => none
  | a :: as =>
    let n := (a :: as).length
    let i := (Rng.next avr.2 n).1
    let tr := buildTaskCore profiles profiles_per_task min_diff
      ((a :: as).getD i a) (Rng.next avr.2 n).2
    some (tr.1, (a :: as).eraseIdx i, tr.2)

/-- The task loop of one search attempt, threading the pool and the
random state through n_tasks choice tasks. -/
def attemptTasks (profiles : List Profile) (profiles_per_task min_diff : Nat) :
    Nat → List Profile → Rng → Option (List (List Profile) × List Profile × Rng)
  | 0, av, r => some ([], av, r)
  | n + 1, av, r =>
    match buildTask profiles av profiles_per_task min_diff r with
    | none => none
    | some (task, av', r') =>
      match attemptTasks profiles profiles_per_task min_diff n av' r' with
      | none => none
      | some (tasks, av'', r'') => some (task :: tasks, av'', r'')

/-- One iteration of the randomized search: a fresh shuffled pool of all
profiles, then n_tasks tasks. -/
def oneAttempt (profiles : List Profile) (n_tasks profiles_per_task min_diff : Nat)
    (r : Rng) : Option (List (List Profile) × Rng) :=
  let avr := shuffleList profiles r
  match attemptTasks profiles profiles_per_task min_diff n_tasks avr.1 avr.2 with
  | none => none
  | some (tasks, _, r') => some (tasks, r')

/-- The iterations loop of _generate_one_version, keeping the attempt with
the strictly lowest balance score (best_score starts at infinity, so the
first attempt is always kept). -/
def searchLoop (profiles : List Profile) (attributes : AttrSpec)
    (n_tasks profiles_per_task min_diff : Nat) :
    Nat → Option (List (List Profile) × ℚ) → Rng →
      Option (Option (List (List Profile) × ℚ) × Rng)
  | 0, best, r => some (best, r)
  | k + 1, best, r =>
    match oneAttempt profiles n_tasks profiles_per_task min_diff r with
    | none => none
    | some (choice_sets, r') =>
      let score := _level_balance_score choice_sets attributes
      let best' : Option (List (List Profile) × ℚ) := match best with
        | none => some (choice_sets, score)
        | some bs => some (if score < bs.2 then (choice_sets, score) else bs)
      searchLoop profiles attributes n_tasks profiles_per_task min_diff k best' r'

/-- One design version via randomized search (helpers.py,
_generate_one_version; the callers use the default iterations=1000). -/
def _generate_one_version (profiles : List Profile) (attributes : AttrSpec)
    (n_tasks profiles_per_task : Nat) (min_diff : Nat) (iterations : Nat)
    (r : Rng) : Option (Option (List (List Profile) × ℚ) × Rng) :=
  searchLoop profiles attributes n_tasks profiles_per_task min_diff iterations none r

/-!
generate_design, helpers.py lines 151-212: spec record, insufficiency
check, min_diff clamp, one version per seed offset with a final
presentation shuffle of each task, balance score rounded to 4 decimals
with Python's round (half to even).
-/

/-- The design specification JSON (spec defaults: 8, 3, 4, 2, 42, false). -/
structure DesignSpec where
  attributes : AttrSpec
  tasks_per_version : Nat
  profiles_per_task : Nat
  n_versions : Nat
  min_attribute_diff : Nat
  seed : Nat
  include_none : Bool

/-- One generated design version of the output JSON. -/
structure VersionOut where
  version : Nat
  balance_score : ℚ
  choice_sets : List (List Profile)

/-- The output JSON of generate-design. -/
structure DesignOut where
  attributes : AttrSpec
  n_tasks : Nat
  profiles_per_task : Nat
  n_versions : Nat
  include_none : Bool
  total_profiles : Nat
  versions : List VersionOut

/-- Python's round to the nearest integer, halves to even. -/
def roundHalfEven (q : ℚ) : ℤ :=
  if q - ⌊q⌋ < 1 / 2 then ⌊q⌋
  else if 1 / 2 < q - ⌊q⌋ then ⌊q⌋ + 1
  else if ⌊q⌋ % 2 = 0 then ⌊q⌋ else ⌊q⌋ + 1

/-- Python's round(x, 4). -/
def pyRound4 (q : ℚ) : ℚ := (roundHalfEven (q * 10000) : ℚ) / 10000

/-- The clamp of lines 173-175: if min_diff exceeds the number of
attributes it becomes max(1, n_attributes - 1). -/
def clampMinDiff (attributes : AttrSpec) (min_diff : Nat) : Nat :=
  if attributes.length < min_diff then max 1 (attributes.length - 1) else min_diff

/-- The presentation shuffle of lines 184-186: each task's profiles are
shuffled in order, threading the random state. -/
def shuffleTasks : List (List Profile) → Rng → List (List Profile) × Rng
  | [], r => ([], r)
  | cs :: rest, r =>
    let csr := shuffleList cs r
    let restr := shuffleTasks rest csr.2
    (csr.1 :: restr.1, restr.2)

/-- The body of the version loop for index v, from the freshly seeded
random state: search with iterations=1000, then shuffle presentation
order, then record version v+1 with the rounded balance score.  A best
set of None (impossible here since iterations > 0) would crash the
Python loop over choice_sets, hence none. -/
def oneVersionRun (profiles : List Profile) (attributes : AttrSpec)
    (n_tasks profiles_per_task min_diff : Nat) (v : Nat) (r : Rng) :
    Option VersionOut :=
  match _generate_one_version profiles attributes n_tasks profiles_per_task
      min_diff 1000 r with
  | none => none
  | some (none, _) => none
  | some (some (sets, score), r') =>
    let sr := shuffleTasks sets r'
    some ⟨v + 1, pyRound4 score, sr.1⟩

/-- The version loop: count remaining versions, next version index; each
version reseeds the random stream at seed + v. -/
def genVersions (mkRng : Nat → Rng) (profiles : List Profile)
    (attributes : AttrSpec) (n_tasks profiles_per_task min_diff seed : Nat) :
    Nat → Nat → Option (List VersionOut)
  | 0, _ => some []
  | count + 1, v =>
    match oneVersionRun profiles attributes n_tasks profiles_per_task min_diff v
        (mkRng (seed + v)) with
    | none => none
    | some ver =>
      match genVersions mkRng profiles attributes n_tasks profiles_per_task
          min_diff seed count (v + 1) with
      | none => none
      | some rest => some (ver :: rest)

/-- Balanced conjoint choice sets from a design specification
(helpers.py, generate_design).  mkRng models random.seed: the stream the
random module produces after seeding with a given value.  The error
results model sys.exit(1) after the insufficiency check and a run killed
by the ValueError of an empty randint range; in both cases the process
terminates with a non-zero status before any design output is written. -/
def generate_design (mkRng : Nat → Rng) (spec : DesignSpec) :
    Except String DesignOut :=
  let profiles := _all_profiles spec.attributes
  if profiles.length < spec.profiles_per_task then
    Except.error "ERROR: not enough unique profiles"
  else
    match genVersions mkRng profiles spec.attributes spec.tasks_per_version
        spec.profiles_per_task (clampMinDiff spec.attributes spec.min_attribute_diff)
        spec.seed spec.n_versions 0 with
    | none => Except.error "ValueError: empty range for randrange()"
    | some versions =>
      Except.ok ⟨spec.attributes, spec.tasks_per_version, spec.profiles_per_task,
        spec.n_versions, spec.include_none, profiles.length, versions⟩

/-! Soundness of the shuffle model and of the task-building loops. -/

lemma getD_cons_eraseIdx_perm {α : Type} :
    ∀ (l : List α) (i : Nat) (d : α), i < l.length →
      (l.getD i d :: l.eraseIdx i).Perm l := by
  intro l
  induction l with
  | nil => intro i d h; cases h
  | cons a as ih =>
    intro i d h
    cases i with
    | zero => exact List.Perm.refl _
    | succ i =>
      have hi : i < as.length := Nat.lt_of_succ_lt_succ h
      show (as.getD i d :: a :: as.eraseIdx i).Perm (a :: as)
      exact List.Perm.trans (List.Perm.swap a (as.getD i d) (as.eraseIdx i))
        (List.Perm.cons a (ih i d hi))

lemma shuffleGo_perm {α : Type} :
    ∀ (fuel : Nat) (l : List α) (r : Rng), (shuffleGo fuel l r).1.Perm l := by
  intro fuel
  induction fuel with
  | zero => intro l r; exact List.Perm.refl l
  | succ fuel ih =>
    intro l r
    cases l with
    | nil => exact List.Perm.refl _
    | cons a as =>
      have hi : (Rng.next r (a :: as).length).1 < (a :: as).length :=
        Nat.mod_lt _ (Nat.succ_pos as.length)
      show ((a :: as).getD (Rng.next r (a :: as).length).1 a ::
        (shuffleGo fuel ((a :: as).eraseIdx (Rng.next r (a :: as).length).1)
          (Rng.next r (a :: as).length).2).1).Perm (a :: as)
      exact List.Perm.trans (List.Perm.cons _ (ih _ _))
        (getD_cons_eraseIdx_perm (a :: as) _ a hi)

lemma shuffleList_perm {α : Type} (l : List α) (r : Rng) :
    (shuffleList l r).1.Perm l :=
  shuffleGo_perm l.length l r

lemma shuffleList_nodup {α : Type} (l : List α) (r : Rng) (h : l.Nodup) :
    (shuffleList l r).1.Nodup :=
  (List.Perm.nodup_iff (shuffleList_perm l r)).mpr h

lemma shuffleList_subset {α : Type} (l : List α) (r : Rng) :
    (shuffleList l r).1 ⊆ l :=
  (shuffleList_perm l r).subset

lemma fillMinDiff_eq_append (profiles_per_task min_diff : Nat) :
    ∀ (cs task : List Profile), ∃ s,
      fillMinDiff profiles_per_task min_diff cs task = task ++ s ∧ s.Sublist cs := by
  intro cs
  induction cs with
  | nil => intro task; exact ⟨[], by simp [fillMinDiff], List.nil_sublist _⟩
  | cons c cs ih =>
    intro task
    rw [fillMinDiff]
    by_cases hlen : profiles_per_task ≤ task.length
    · rw [if_pos hlen]
      exact ⟨[], by simp, List.nil_sublist _⟩
    · rw [if_neg hlen]
      by_cases hall : task.all (fun t => decide (min_diff ≤ _profile_diff_count c t))
      · rw [if_pos hall]
        obtain ⟨s, heq, hsub⟩ := ih (task ++ [c])
        exact ⟨c :: s, by rw [heq, List.append_assoc]; rfl, List.Sublist.cons₂ c hsub⟩
      · rw [if_neg hall]
        obtain ⟨s, heq, hsub⟩ := ih task
        exact ⟨s, heq, List.Sublist.cons c hsub⟩

lemma fillAny_eq_append (profiles_per_task : Nat) :
    ∀ (cs task : List Profile), ∃ s,
      fillAny profiles_per_task cs task = task ++ s ∧ s.Sublist cs := by
  intro cs
  induction cs with
  | nil => intro task; exact ⟨[], by simp [fillAny], List.nil_sublist _⟩
  | cons c cs ih =>
    intro task
    rw [fillAny]
    by_cases hlen : profiles_per_task ≤ task.length
    · rw [if_pos hlen]
      exact ⟨[], by simp, List.nil_sublist _⟩
    · rw [if_neg hlen]
      obtain ⟨s, heq, hsub⟩ := ih (task ++ [c])
      exact ⟨c :: s, by rw [heq, List.append_assoc]; rfl, List.Sublist.cons₂ c hsub⟩

lemma getD_cons_mem {α : Type} (a : α) (as : List α) (i : Nat) :
    (a :: as).getD i a ∈ a :: as := by
  by_cases h : i < (a :: as).length
  · rw [List.getD_eq_getElem _ _ h]
    exact List.getElem_mem h
  · rw [List.getD_eq_default _ _ (Nat.le_of_not_lt h)]
    exact List.mem_cons_self a as

lemma buildTaskCore_subset (profiles : List Profile) (ppt md : Nat)
    (first : Profile) (r2 : Rng) :
    ∀ p ∈ (buildTaskCore profiles ppt md first r2).1, p = first ∨ p ∈ profiles := by
  simp only [buildTaskCore]
  obtain ⟨s, heq, hsub⟩ := fillMinDiff_eq_append ppt md
    (shuffleList (profiles.filter (fun p => decide (p ≠ first))) r2).1 [first]
  rw [heq]
  have hs : ∀ p ∈ s, p ∈ profiles := by
    intro p hp
    have := shuffleList_subset _ r2 (hsub.subset hp)
    exact (List.mem_filter.mp this).1
  have hbase : ∀ p ∈ [first] ++ s, p = first ∨ p ∈ profiles := by
    intro p hp
    rcases List.mem_append.mp hp with h1 | h2
    · exact Or.inl (List.mem_singleton.mp h1)
    · exact Or.inr (hs p h2)
  split
  · obtain ⟨s2, heq2, hsub2⟩ := fillAny_eq_append ppt
      (shuffleList (profiles.filter
        (fun p => decide (p ∉ [first] ++ s))) ((shuffleList
          (profiles.filter (fun p => decide (p ≠ first))) r2).2)).1 ([first] ++ s)
    rw [heq2]
    intro p hp
    rcases List.mem_append.mp hp with h1 | h2
    · exact hbase p h1
    · have := shuffleList_subset _ _ (hsub2.subset h2)
      exact Or.inr (List.mem_filter.mp this).1
  · exact hbase

lemma buildTaskCore_nodup (profiles : List Profile) (ppt md : Nat)
    (first : Profile) (r2 : Rng) (hnd : profiles.Nodup) :
    (buildTaskCore profiles ppt md first r2).1.Nodup := by
  simp only [buildTaskCore]
  obtain ⟨s, heq, hsub⟩ := fillMinDiff_eq_append ppt md
    (shuffleList (profiles.filter (fun p => decide (p ≠ first))) r2).1 [first]
  rw [heq]
  have hcnd : (shuffleList (profiles.filter (fun p => decide (p ≠ first))) r2).1.Nodup :=
    shuffleList_nodup _ r2 (hnd.filter _)
  have hfs : first ∉ s := by
    intro hf
    have := shuffleList_subset _ r2 (hsub.subset hf)
    have := (List.mem_filter.mp this).2
    simp at this
  have hbase : ([first] ++ s).Nodup := by
    rw [List.nodup_append]
    refine ⟨List.nodup_singleton first, hsub.nodup hcnd, ?_⟩
    intro x hx hxs
    rw [List.mem_singleton.mp hx] at hxs
    exact hfs hxs
  split
  · obtain ⟨s2, heq2, hsub2⟩ := fillAny_eq_append ppt
      (shuffleList (profiles.filter
        (fun p => decide (p ∉ [first] ++ s))) ((shuffleList
          (profiles.filter (fun p => decide (p ≠ first))) r2).2)).1 ([first] ++ s)
    rw [heq2]
    rw [List.nodup_append]
    refine ⟨hbase, ?_, ?_⟩
    · apply hsub2.nodup
      exact shuffleList_nodup _ _ (hnd.filter _)
    · intro x hx hxs
      have := shuffleList_subset _ _ (hsub2.subset hxs)
      have := (List.mem_filter.mp this).2
      simp only [decide_eq_true_eq] at this
      exact this hx
  · exact hbase

lemma buildTask_sound (profiles available : List Profile) (ppt md : Nat) (r : Rng)
    (task av' : List Profile) (r' : Rng)
    (hav : ∀ p ∈ available, p ∈ profiles)
    (h : buildTask profiles available ppt md r = some (task, av', r')) :
    (∀ p ∈ task, p ∈ profiles) ∧ (∀ p ∈ av', p ∈ profiles) := by
  have hsub : ∀ p ∈ (if available.isEmpty then shuffleList profiles r
      else (available, r)).1, p ∈ profiles := by
    by_cases hemp : available.isEmpty
    · rw [if_pos hemp]
      exact fun p hp => shuffleList_subset _ _ hp
    · rw [if_neg hemp]
      exact hav
  simp only [buildTask] at h
  split at h
  · exact absurd h (by simp)
  · rename_i a as heq
    rw [heq] at hsub
    rw [Option.some_inj] at h
    have htask : task = (buildTaskCore profiles ppt md
        ((a :: as).getD (Rng.next (if available.isEmpty then shuffleList profiles r
          else (available, r)).2 (a :: as).length).1 a)
        (Rng.next (if available.isEmpty then shuffleList profiles r
          else (available, r)).2 (a :: as).length).2).1 := (congrArg Prod.fst h).symm
    have hav' : av' = (a :: as).eraseIdx (Rng.next (if available.isEmpty then
        shuffleList profiles r else (available, r)).2 (a :: as).length).1 :=
      (congrArg (fun x => x.2.1) h).symm
    have hfirstmem : ((a :: as).getD (Rng.next (if available.isEmpty then
        shuffleList profiles r else (available, r)).2 (a :: as).length).1 a) ∈ profiles :=
      hsub _ (getD_cons_mem a as _)
    constructor
    · intro p hp
      exact (buildTaskCore_subset profiles ppt md _ _ p
        (htask ▸ hp)).elim (fun he => he ▸ hfirstmem) id
    · intro p hp
      rw [hav'] at hp
      exact hsub p ((List.eraseIdx_sublist (a :: as) _).subset hp)

lemma buildTask_nodup (profiles available : List Profile) (ppt md : Nat) (r : Rng)
    (task av' : List Profile) (r' : Rng) (hnd : profiles.Nodup)
    (h : buildTask profiles available ppt md r = some (task, av', r')) :
    task.Nodup := by
  simp only [buildTask] at h
  split at h
  · exact absurd h (by simp)
  · rename_i a as heq
    have htask : task = (buildTaskCore profiles ppt md
        ((a :: as).getD (Rng.next (if available.isEmpty then shuffleList profiles r
          else (available, r)).2 (a :: as).length).1 a)
        (Rng.next (if available.isEmpty then shuffleList profiles r
          else (available, r)).2 (a :: as).length).2).1 :=
      (congrArg Prod.fst (Option.some_inj.mp h)).symm
    rw [htask]
    exact buildTaskCore_nodup profiles ppt md _ _ hnd

lemma attemptTasks_sound (profiles : List Profile) (ppt md : Nat) :
    ∀ (n : Nat) (av : List Profile) (r : Rng) (tasks : List (List Profile))
      (av'' : List Profile) (r'' : Rng),
      (∀ p ∈ av, p ∈ profiles) →
      attemptTasks profiles ppt md n av r = some (tasks, av'', r'') →
      ∀ t ∈ tasks, ∀ p ∈ t, p ∈ profiles := by
  intro n
  induction n with
  | zero =>
    intro av r tasks av'' r'' _ h t ht
    rw [attemptTasks] at h
    injection h with h'
    injection h' with h1 h2
    rw [← h1] at ht
    cases ht
  | succ n ih =>
    intro av r tasks av'' r'' hav h t ht
    rw [attemptTasks] at h
    split at h
    · exact Option.noConfusion h
    · rename_i task av' r' hb
      split at h
      · exact Option.noConfusion h
      · rename_i tasks' av2 r2 ha
        injection h with h'
        injection h' with h1 h23
        rw [← h1] at ht
        obtain ⟨hsub, hav'⟩ := buildTask_sound profiles av ppt md r task av' r' hav hb
        rcases List.mem_cons.mp ht with rfl | htail
        · exact hsub
        · exact ih av' r' tasks' av2 r2 hav' ha t htail

lemma attemptTasks_nodup (profiles : List Profile) (ppt md : Nat) (hnd : profiles.Nodup) :
    ∀ (n : Nat) (av : List Profile) (r : Rng) (tasks : List (List Profile))
      (av'' : List Profile) (r'' : Rng),
      attemptTasks profiles ppt md n av r = some (tasks, av'', r'') →
      ∀ t ∈ tasks, t.Nodup := by
  intro n
  induction n with
  | zero =>
    intro av r tasks av'' r'' h t ht
    rw [attemptTasks] at h
    injection h with h'
    injection h' with h1 h2
    rw [← h1] at ht
    cases ht
  | succ n ih =>
    intro av r tasks av'' r'' h t ht
    rw [attemptTasks] at h
    split at h
    · exact Option.noConfusion h
    · rename_i task av' r' hb
      split at h
      · exact Option.noConfusion h
      · rename_i tasks' av2 r2 ha
        injection h with h'
        injection h' with h1 h23
        rw [← h1] at ht
        rcases List.mem_cons.mp ht with rfl | htail
        · exact buildTask_nodup profiles av ppt md r t av' r' hnd hb
        · exact ih av' r' tasks' av2 r2 ha t htail

lemma oneAttempt_sound (profiles : List Profile) (n_tasks ppt md : Nat) (r : Rng)
    (sets : List (List Profile)) (r' : Rng)
    (h : oneAttempt profiles n_tasks ppt md r = some (sets, r')) :
    ∀ t ∈ sets, ∀ p ∈ t, p ∈ profiles := by
  rw [oneAttempt] at h
  split at h
  · exact Option.noConfusion h
  · rename_i tasks av'' r'' ha
    injection h with h'
    injection h' with h1 h2
    rw [← h1]
    exact attemptTasks_sound profiles ppt md n_tasks _ _ tasks av'' r''
      (fun p hp => shuffleList_subset profiles r hp) ha

lemma oneAttempt_nodup (profiles : List Profile) (n_tasks ppt md : Nat) (r : Rng)
    (sets : List (List Profile)) (r' : Rng) (hnd : profiles.Nodup)
    (h : oneAttempt profiles n_tasks ppt md r = some (sets, r')) :
    ∀ t ∈ sets, t.Nodup := by
  rw [oneAttempt] at h
  split at h
  · exact Option.noConfusion h
  · rename_i tasks av'' r'' ha
    injection h with h'
    injection h' with h1 h2
    rw [← h1]
    exact attemptTasks_nodup profiles ppt md hnd n_tasks _ _ tasks av'' r'' ha

lemma searchLoop_pred (profiles : List Profile) (attributes : AttrSpec)
    (n_tasks ppt md : Nat) (P : List (List Profile) → Prop)
    (hstep : ∀ r sets r', oneAttempt profiles n_tasks ppt md r = some (sets, r') → P sets) :
    ∀ (k : Nat) (best : Option (List (List Profile) × ℚ)) (r : Rng)
      (out : Option (List (List Profile) × ℚ)) (r2 : Rng),
      (∀ bs sc, best = some (bs, sc) → P bs) →
      searchLoop profiles attributes n_tasks ppt md k best r = some (out, r2) →
      ∀ bs sc, out = some (bs, sc) → P bs := by
  intro k
  induction k with
  | zero =>
    intro best r out r2 hbest h
    rw [searchLoop] at h
    injection h with h'
    injection h' with h1 h2
    intro bs sc hout
    exact hbest bs sc (by rw [h1]; exact hout)
  | succ k ih =>
    intro best r out r2 hbest h
    rw [searchLoop] at h
    split at h
    · exact Option.noConfusion h
    · rename_i cs r' ho
      simp only [] at h
      refine ih _ r' out r2 ?_ h
      intro bs sc hb
      cases best with
      | none =>
        injection hb with hb'
        injection hb' with hcs hsc
        exact hcs ▸ hstep r cs r' ho
      | some b =>
        injection hb with hb'
        by_cases hlt : _level_balance_score cs attributes < b.2
        · rw [if_pos hlt] at hb'
          injection hb' with hcs hsc
          exact hcs ▸ hstep r cs r' ho
        · rw [if_neg hlt] at hb'
          exact hbest bs sc (by rw [hb'])

/-- C6 as amended: whenever the input profile list has no duplicate
entries (as the enumerator produces for duplicate-free level lists), every
Choice Task produced by the Design Search Engine has pairwise distinct
profiles, for every attribute specification, task count, profiles-per-task,
min_diff, iteration count and random stream. -/
theorem C6_tasks_pairwise_distinct (profiles : List Profile)
    (attributes : AttrSpec) (n_tasks ppt md iters : Nat) (r : Rng)
    (sets : List (List Profile)) (sc : ℚ) (r' : Rng) (hnd : profiles.Nodup)
    (h : _generate_one_version profiles attributes n_tasks ppt md iters r =
      some (some (sets, sc), r')) :
    ∀ task ∈ sets, task.Nodup := by
  have := searchLoop_pred profiles attributes n_tasks ppt md
    (fun s => ∀ t ∈ s, t.Nodup)
    (fun r sets r' hatt => oneAttempt_nodup profiles n_tasks ppt md r sets r' hnd hatt)
    iters none r (some (sets, sc)) r' (fun bs sc hb => Option.noConfusion hb) h
  exact this sets sc rfl

/-- Witness for the amended C6 on a singleton profile list and one search
iteration. -/
theorem C6_tasks_pairwise_distinct_witness :
    ([[("a", "x")]] : List Profile).Nodup :=
  C6_tasks_pairwise_distinct [[("a", "x")]] [("a", ["x"])] 1 1 0 1
    ⟨fun _ => 0, 0⟩ [[[("a", "x")]]]
    (_level_balance_score [[[("a", "x")]]] [("a", ["x"])]) ⟨fun _ => 0, 2⟩
    (by decide) rfl [[("a", "x")]] (List.mem_singleton.mpr rfl)

/-- Counterexample to C6 as stated: with a duplicated profile in the input
list (min_diff too large for the greedy phase, so the relaxation loop
appends without checks), a single iteration produces the task
pA, pB, pB whose profiles are not pairwise distinct. -/
theorem C6_counterexample_duplicate_profiles :
    _generate_one_version [[("a", "x")], [("a", "y")], [("a", "y")]]
        [("a", ["x", "y"])] 1 3 99 1 ⟨fun _ => 0, 0⟩ =
      some (some ([[[("a", "x")], [("a", "y")], [("a", "y")]]],
        _level_balance_score [[[("a", "x")], [("a", "y")], [("a", "y")]]]
          [("a", ["x", "y"])]), ⟨fun _ => 0, 8⟩) ∧
    ¬ ([[("a", "x")], [("a", "y")], [("a", "y")]] : List Profile).Nodup :=
  ⟨rfl, by decide⟩

/-- C8: the distinct profiles of a generated design version (the profiles
it contains, across all of its choice tasks) never number more than the
enumerated profiles the search draws from. -/
theorem C8_version_profiles_bounded (attributes : AttrSpec)
    (n_tasks ppt md iters : Nat) (r : Rng) (sets : List (List Profile))
    (sc : ℚ) (r' : Rng)
    (h : _generate_one_version (_all_profiles attributes) attributes n_tasks ppt md
      iters r = some (some (sets, sc), r')) :
    sets.flatten.dedup.length ≤ (_all_profiles attributes).length := by
  have hmem : ∀ t ∈ sets, ∀ p ∈ t, p ∈ _all_profiles attributes := by
    have := searchLoop_pred (_all_profiles attributes) attributes n_tasks ppt md
      (fun s => ∀ t ∈ s, ∀ p ∈ t, p ∈ _all_profiles attributes)
      (fun r sets r' hatt => oneAttempt_sound _ n_tasks ppt md r sets r' hatt)
      iters none r (some (sets, sc)) r' (fun bs sc hb => Option.noConfusion hb) h
    exact this sets sc rfl
  have hsub : sets.flatten.dedup ⊆ _all_profiles attributes := by
    intro p hp
    obtain ⟨t, ht, hpt⟩ := List.mem_flatten.mp (List.dedup_subset _ hp)
    exact hmem t ht p hpt
  exact ((List.nodup_dedup sets.flatten).subperm hsub).length_le

/-- Witness for C8 on a one-attribute, one-level specification. -/
theorem C8_version_profiles_bounded_witness :
    ([[[("a", "x")]]] : List (List Profile)).flatten.dedup.length ≤
      (_all_profiles [("a", ["x"])]).length :=
  C8_version_profiles_bounded [("a", ["x"])] 1 1 0 1 ⟨fun _ => 0, 0⟩
    [[[("a", "x")]]] (_level_balance_score [[[("a", "x")]]] [("a", ["x"])])
    ⟨fun _ => 0, 2⟩ rfl

/-! When the search crashes and when it cannot: the pop of the task loop
fails exactly when the pool and the profile list are both empty. -/

lemma buildTask_isSome (profiles av : List Profile) (ppt md : Nat) (r : Rng)
    (hne : profiles ≠ []) : (buildTask profiles av ppt md r).isSome := by
  have hav : (if av.isEmpty then shuffleList profiles r else (av, r)).1 ≠ [] := by
    by_cases hemp : av.isEmpty
    · rw [if_pos hemp]
      intro hcon
      have hperm := shuffleList_perm profiles r
      rw [hcon] at hperm
      exact hne hperm.symm.eq_nil
    · rw [if_neg hemp]
      simpa using hemp
  rw [buildTask]
  split
  · rename_i heq
    exact absurd heq hav
  · rfl

lemma attemptTasks_isSome (profiles : List Profile) (ppt md : Nat)
    (hne : profiles ≠ []) :
    ∀ (n : Nat) (av : List Profile) (r : Rng),
      (attemptTasks profiles ppt md n av r).isSome := by
  intro n
  induction n with
  | zero => intro av r; rfl
  | succ n ih =>
    intro av r
    rw [attemptTasks]
    split
    · rename_i heq
      have := buildTask_isSome profiles av ppt md r hne
      rw [heq] at this
      exact absurd this (by simp)
    · rename_i task av' r' heq
      split
      · rename_i heq2
        have := ih av' r'
        rw [heq2] at this
        exact absurd this (by simp)
      · rfl

lemma oneAttempt_none (n ppt md : Nat) (r : Rng) :
    oneAttempt [] (n + 1) ppt md r = none := rfl

lemma oneAttempt_isSome (profiles : List Profile) (n_tasks ppt md : Nat) (r : Rng)
    (h : profiles ≠ [] ∨ n_tasks = 0) : (oneAttempt profiles n_tasks ppt md r).isSome := by
  have hat : ∀ (av : List Profile) (r' : Rng),
      (attemptTasks profiles ppt md n_tasks av r').isSome := by
    rcases h with hne | hz
    · exact fun av r' => attemptTasks_isSome profiles ppt md hne n_tasks av r'
    · subst hz
      intro av r'
      rfl
  rw [oneAttempt]
  split
  · rename_i heq
    have := hat (shuffleList profiles r).1 (shuffleList profiles r).2
    rw [heq] at this
    exact absurd this (by simp)
  · rfl

lemma searchLoop_isSome (profiles : List Profile) (attributes : AttrSpec)
    (n_tasks ppt md : Nat)
    (hstep : ∀ r : Rng, (oneAttempt profiles n_tasks ppt md r).isSome) :
    ∀ (k : Nat) (best : Option (List (List Profile) × ℚ)) (r : Rng),
      (searchLoop profiles attributes n_tasks ppt md k best r).isSome := by
  intro k
  induction k with
  | zero => intro best r; rfl
  | succ k ih =>
    intro best r
    rw [searchLoop]
    split
    · rename_i heq
      have := hstep r
      rw [heq] at this
      exact absurd this (by simp)
    · rename_i cs r' heq
      exact ih _ r'

lemma searchLoop_none (profiles : List Profile) (attributes : AttrSpec)
    (n_tasks ppt md : Nat)
    (hstep : ∀ r : Rng, oneAttempt profiles n_tasks ppt md r = none)
    (k : Nat) (best : Option (List (List Profile) × ℚ)) (r : Rng) :
    searchLoop profiles attributes n_tasks ppt md (k + 1) best r = none := by
  rw [searchLoop, hstep r]

lemma searchLoop_some_isSome (profiles : List Profile) (attributes : AttrSpec)
    (n_tasks ppt md : Nat) :
    ∀ (k : Nat) (best : Option (List (List Profile) × ℚ)) (r : Rng)
      (out : Option (List (List Profile) × ℚ)) (r2 : Rng),
      searchLoop profiles attributes n_tasks ppt md k best r = some (out, r2) →
      (best.isSome ∨ 0 < k) → out.isSome := by
  intro k
  induction k with
  | zero =>
    intro best r out r2 h hd
    rw [searchLoop] at h
    injection h with h'
    injection h' with h1 h2
    rcases hd with hb | hk
    · rw [← h1]; exact hb
    · cases hk
  | succ k ih =>
    intro best r out r2 h _
    rw [searchLoop] at h
    split at h
    · exact Option.noConfusion h
    · rename_i cs r' heq
      simp only [] at h
      refine ih _ r' out r2 h (Or.inl ?_)
      cases best <;> rfl

lemma oneVersionRun_isSome (profiles : List Profile) (attributes : AttrSpec)
    (n_tasks ppt md v : Nat) (r : Rng) (h : profiles ≠ [] ∨ n_tasks = 0) :
    (oneVersionRun profiles attributes n_tasks ppt md v r).isSome := by
  rw [oneVersionRun]
  split
  · rename_i heq
    have := searchLoop_isSome profiles attributes n_tasks ppt md
      (fun r' => oneAttempt_isSome profiles n_tasks ppt md r' h) 1000 none r
    rw [_generate_one_version] at heq
    rw [heq] at this
    exact absurd this (by simp)
  · rename_i r2 heq
    rw [_generate_one_version] at heq
    have := searchLoop_some_isSome profiles attributes n_tasks ppt md 1000 none r
      none r2 heq (Or.inr (by norm_num))
    exact absurd this (by simp)
  · rfl

lemma oneVersionRun_none (attributes : AttrSpec) (n_tasks ppt md v : Nat) (r : Rng)
    (hn : 0 < n_tasks) :
    oneVersionRun [] attributes n_tasks ppt md v r = none := by
  obtain ⟨m, hm⟩ := Nat.exists_eq_succ_of_ne_zero (Nat.pos_iff_ne_zero.mp hn)
  have hgov : _generate_one_version [] attributes n_tasks ppt md 1000 r = none := by
    rw [_generate_one_version, hm]
    exact searchLoop_none [] attributes (m + 1) ppt md
      (fun r' => oneAttempt_none m ppt md r') 999 none r
  rw [oneVersionRun, hgov]

lemma genVersions_isSome (mkRng : Nat → Rng) (profiles : List Profile)
    (attributes : AttrSpec) (n_tasks ppt md seed : Nat)
    (h : profiles ≠ [] ∨ n_tasks = 0) :
    ∀ (count v : Nat),
      (genVersions mkRng profiles attributes n_tasks ppt md seed count v).isSome := by
  intro count
  induction count with
  | zero => intro v; rfl
  | succ count ih =>
    intro v
    rw [genVersions]
    split
    · rename_i heq
      have := oneVersionRun_isSome profiles attributes n_tasks ppt md v
        (mkRng (seed + v)) h
      rw [heq] at this
      exact absurd this (by simp)
    · rename_i ver heq
      split
      · rename_i heq2
        have := ih (v + 1)
        rw [heq2] at this
        exact absurd this (by simp)
      · rfl

lemma genVersions_none (mkRng : Nat → Rng) (attributes : AttrSpec)
    (n_tasks ppt md seed : Nat) (hn : 0 < n_tasks) (count v : Nat) :
    genVersions mkRng [] attributes n_tasks ppt md seed (count + 1) v = none := by
  rw [genVersions, oneVersionRun_none attributes n_tasks ppt md v _ hn]

/-- The all-zeros random stream, used for concrete runs. -/
def zeroRng : Nat → Rng := fun _ => ⟨fun _ => 0, 0⟩

/-- Whether an Except result is an error (the run terminated with a
non-zero status before writing output). -/
def exceptHasError {ε α : Type} : Except ε α → Bool
  | Except.error _ => true
  | Except.ok _ => false

/-- C9 as amended: design generation terminates with a non-zero status
before producing output exactly when profiles_per_task exceeds the number
of enumerated profiles (the checked sys.exit(1)), or when the enumerated
profile list is empty while tasks_per_version and n_versions are positive
(profiles_per_task is then 0, the check passes, and the first task pops
from an empty pool: randint(0, -1) raises ValueError). -/
theorem C9_generation_error_iff (mkRng : Nat → Rng) (spec : DesignSpec) :
    (∃ e, generate_design mkRng spec = Except.error e) ↔
      ((_all_profiles spec.attributes).length < spec.profiles_per_task ∨
        (_all_profiles spec.attributes = [] ∧ 0 < spec.tasks_per_version ∧
          0 < spec.n_versions)) := by
  by_cases hlen : (_all_profiles spec.attributes).length < spec.profiles_per_task
  · simp only [generate_design, if_pos hlen]
    constructor
    · intro _
      exact Or.inl hlen
    · intro _
      exact ⟨_, rfl⟩
  · simp only [generate_design, if_neg hlen]
    by_cases hnv : spec.n_versions = 0
    · have hgv : genVersions mkRng (_all_profiles spec.attributes) spec.attributes
          spec.tasks_per_version spec.profiles_per_task
          (clampMinDiff spec.attributes spec.min_attribute_diff) spec.seed
          spec.n_versions 0 = some [] := by
        rw [hnv]
        rfl
      rw [hgv]
      constructor
      · rintro ⟨e, he⟩
        exact Except.noConfusion he
      · rintro (h | ⟨_, _, hnv'⟩)
        · exact absurd h hlen
        · rw [hnv] at hnv'
          exact absurd hnv' (by simp)
    · have hnvpos : 0 < spec.n_versions := Nat.pos_of_ne_zero hnv
      by_cases hcrash : _all_profiles spec.attributes = [] ∧ 0 < spec.tasks_per_version
      · obtain ⟨hpe, hnt⟩ := hcrash
        obtain ⟨m, hm⟩ := Nat.exists_eq_succ_of_ne_zero hnv
        have hgv : genVersions mkRng (_all_profiles spec.attributes) spec.attributes
            spec.tasks_per_version spec.profiles_per_task
            (clampMinDiff spec.attributes spec.min_attribute_diff) spec.seed
            spec.n_versions 0 = none := by
          rw [hpe, hm]
          exact genVersions_none mkRng spec.attributes spec.tasks_per_version
            spec.profiles_per_task
            (clampMinDiff spec.attributes spec.min_attribute_diff) spec.seed hnt m 0
        rw [hgv]
        constructor
        · intro _
          exact Or.inr ⟨hpe, hnt, hnvpos⟩
        · intro _
          exact ⟨_, rfl⟩
      · have hh : _all_profiles spec.attributes ≠ [] ∨ spec.tasks_per_version = 0 := by
          by_cases hpe : _all_profiles spec.attributes = []
          · right
            by_contra hnt
            exact hcrash ⟨hpe, Nat.pos_of_ne_zero hnt⟩
          · left
            exact hpe
        obtain ⟨l, hl⟩ := Option.isSome_iff_exists.mp
          (genVersions_isSome mkRng (_all_profiles spec.attributes) spec.attributes
            spec.tasks_per_version spec.profiles_per_task
            (clampMinDiff spec.attributes spec.min_attribute_diff) spec.seed hh
            spec.n_versions 0)
        rw [hl]
        constructor
        · rintro ⟨e, he⟩
          exact Except.noConfusion he
        · rintro (h | ⟨hpe, hnt, _⟩)
          · exact absurd h hlen
          · rcases hh with hne | hz
            · exact absurd hpe hne
            · rw [hz] at hnt
              exact absurd hnt (by simp)

/-- Counterexample to C9 as stated: with one attribute and no levels there
are no profiles, profiles_per_task = 0 passes the insufficiency check, yet
the run dies in the first task's pop from the empty pool - a fatal
non-zero exit that the claimed iff does not predict. -/
theorem C9_counterexample_empty_pool :
    generate_design zeroRng ⟨[("a", [])], 1, 0, 1, 2, 42, false⟩ =
      Except.error "ValueError: empty range for randrange()" ∧
    ¬ ((_all_profiles [("a", [])]).length < 0) :=
  ⟨rfl, by decide⟩

/-- Witness for the amended C9 on an insufficient specification. -/
theorem C9_generation_error_iff_witness :
    exceptHasError (generate_design zeroRng ⟨[("a", ["x"])], 1, 5, 1, 2, 42, false⟩) =
      true := by
  obtain ⟨e, he⟩ := (C9_generation_error_iff zeroRng
    ⟨[("a", ["x"])], 1, 5, 1, 2, 42, false⟩).mpr (Or.inl (by decide))
  rw [he]
  rfl

/-! Seed determinism: each version depends on the random module's state
only through the stream obtained by seeding with seed + version index. -/

lemma genVersions_congr (mkRng1 mkRng2 : Nat → Rng) (profiles : List Profile)
    (attributes : AttrSpec) (n_tasks ppt md seed : Nat) :
    ∀ (count v : Nat),
      (∀ j, j < count → mkRng1 (seed + (v + j)) = mkRng2 (seed + (v + j))) →
      genVersions mkRng1 profiles attributes n_tasks ppt md seed count v =
        genVersions mkRng2 profiles attributes n_tasks ppt md seed count v := by
  intro count
  induction count with
  | zero => intro v _; rfl
  | succ count ih =>
    intro v hj
    have h0 : mkRng1 (seed + v) = mkRng2 (seed + v) := by
      have := hj 0 (Nat.succ_pos count)
      simpa using this
    rw [genVersions, genVersions, h0,
      ih (v + 1) (fun j hjc => by
        have := hj (j + 1) (Nat.succ_lt_succ hjc)
        rw [show v + (j + 1) = v + 1 + j from by omega] at this
        exact this)]

lemma genVersions_getElem (mkRng : Nat → Rng) (profiles : List Profile)
    (attributes : AttrSpec) (n_tasks ppt md seed : Nat) :
    ∀ (count v : Nat) (l : List VersionOut),
      genVersions mkRng profiles attributes n_tasks ppt md seed count v = some l →
      ∀ j, j < count →
        l[j]? = oneVersionRun profiles attributes n_tasks ppt md (v + j)
          (mkRng (seed + (v + j))) := by
  intro count
  induction count with
  | zero => intro v l h j hj; cases hj
  | succ count ih =>
    intro v l h j hj
    rw [genVersions] at h
    split at h
    · exact Option.noConfusion h
    · rename_i ver heq
      split at h
      · exact Option.noConfusion h
      · rename_i rest heq2
        injection h with h'
        rw [← h']
        cases j with
        | zero =>
          simp only [Nat.add_zero]
          rw [heq, List.getElem?_cons_zero]
        | succ j =>
          simp only [List.getElem?_cons_succ]
          have := ih (v + 1) rest heq2 j (Nat.lt_of_succ_lt_succ hj)
          rw [show v + (j + 1) = v + 1 + j from by omega]
          exact this

/-- C7: design generation is deterministic in the seed, and version v is a
function of the specification and the stream seeded with seed + v: two
random-module models that agree on the streams for seeds seed .. seed +
n_versions - 1 give identical output, and every successful run's version v
equals the version-loop body run on the stream seeded with seed + v. -/
theorem C7_seed_determinism (spec : DesignSpec) (mkRng1 mkRng2 : Nat → Rng)
    (out : DesignOut) :
    ((∀ v, v < spec.n_versions → mkRng1 (spec.seed + v) = mkRng2 (spec.seed + v)) →
      generate_design mkRng1 spec = generate_design mkRng2 spec) ∧
    (generate_design mkRng1 spec = Except.ok out →
      ∀ v, v < spec.n_versions →
        out.versions[v]? = oneVersionRun (_all_profiles spec.attributes)
          spec.attributes spec.tasks_per_version spec.profiles_per_task
          (clampMinDiff spec.attributes spec.min_attribute_diff) v
          (mkRng1 (spec.seed + v))) := by
  constructor
  · intro hagree
    simp only [generate_design]
    rw [genVersions_congr mkRng1 mkRng2 (_all_profiles spec.attributes) spec.attributes
      spec.tasks_per_version spec.profiles_per_task
      (clampMinDiff spec.attributes spec.min_attribute_diff) spec.seed
      spec.n_versions 0 (fun j hj => by simpa using hagree j hj)]
  · intro h v hv
    rw [generate_design] at h
    split at h
    · exact Except.noConfusion h
    · revert h
      split
      · intro h
        exact Except.noConfusion h
      · rename_i versions heq
        intro h
        injection h with h'
        rw [← h']
        have := genVersions_getElem mkRng1 (_all_profiles spec.attributes)
          spec.attributes spec.tasks_per_version spec.profiles_per_task
          (clampMinDiff spec.attributes spec.min_attribute_diff) spec.seed
          spec.n_versions 0 versions heq v hv
        simpa using this

/-- A second random-module model, disagreeing with zeroRng on every seed. -/
def shiftRng : Nat → Rng := fun s => ⟨fun n => n + s, s⟩

/-- Witness for C7: with zero versions no stream is consulted, so two
models that disagree on every seed still produce the same output, and the
success hypothesis of the per-version clause is satisfied concretely. -/
theorem C7_seed_determinism_witness :
    generate_design zeroRng ⟨[("a", ["x"])], 1, 1, 0, 2, 42, false⟩ =
      generate_design shiftRng ⟨[("a", ["x"])], 1, 1, 0, 2, 42, false⟩ ∧
    generate_design zeroRng ⟨[("a", ["x"])], 1, 1, 0, 2, 42, false⟩ =
      Except.ok ⟨[("a", ["x"])], 1, 1, 0, false, 1, []⟩ :=
  ⟨(C7_seed_determinism ⟨[("a", ["x"])], 1, 1, 0, 2, 42, false⟩ zeroRng shiftRng
      ⟨[("a", ["x"])], 1, 1, 0, false, 1, []⟩).1
      (fun v hv => absurd hv (by simp)),
    rfl⟩
